import Mathlib

/-!
# Verification of the tlc3 certificate-collection engine (`cert.go`)

A shallow embedding of the core engine: address normalization
(`ensureDefaultPort`, `ensureHostPort` plus the Go standard library
helpers `net.SplitHostPort` and `net.LookupPort` they delegate to),
time-to-expiry computation (`daysLeft`), the per-host IP cache
(`lookupIP`), the per-host connection cache (`getTLSConn`,
`releaseTLSConn`), certificate extraction (`getServerCert`, `getSANs`),
and the orchestrator (`getCertList`).

Modelling conventions:
* Go strings are `List Char`.
* Machine integers are `Nat`/`Int` with explicit `% 2^32` where the
  source relies on `uint32` wrap-around (`parsePort`).
* `float64` arithmetic in `daysLeft` is modelled by exact rational
  values represented as unreduced numerator/denominator pairs (`Frac`);
  the Go conversion `int(x)` truncates toward zero (`Int.tdiv`).
* Network and certificate data come from an explicit environment
  (`Env`): DNS answers, dial outcomes, peer-certificate chains and the
  current time are oracle functions, so each run of the engine is a
  deterministic function of its environment and cache state.
* The two process-wide `sync.Map`s (`ipMap`, `connMap`) are association
  lists threaded through the engine as explicit state (`CacheState`),
  together with instrumentation counters (DNS queries issued, TLS dials
  attempted, connections closed, targets started) that record the
  side effects the specification talks about.
-/

namespace Tlc3

/-- Go `string`, modelled as its character sequence. -/
abbrev Str := List Char

/-! ## Address normalization (`cert.go`: `ensureDefaultPort`, `ensureHostPort`) -/

/-- Model of `ensureDefaultPort` (cert.go): appends `":443"` when the raw address
contains no colon (`strings.Contains(addr, ":")`). -/
def ensureDefaultPort (addr : Str) : Str :=
  if ':' ∈ addr then addr else addr ++ ([':', '4', '4', '3'] : Str)

/-- Index of the last occurrence of a byte, `none` when absent
(Go `bytealg.LastIndexByteString`, used by `net.SplitHostPort`). -/
def lastIndexOf : Str → Char → Option Nat
  | [], _ => none
  | a :: rest, c =>
    match lastIndexOf rest c with
    | some i => some (i + 1)
    | none => if a = c then some 0 else none

/-- Index of the first occurrence of a byte, `none` when absent
(Go `byteIndex` helper inside `net.SplitHostPort`). -/
def byteIndex : Str → Char → Option Nat
  | [], _ => none
  | a :: rest, c => if a = c then some 0 else (byteIndex rest c).map (· + 1)

/-- Go `net.SplitHostPort`: the port starts after the last colon; a
leading `[` starts a bracketed (IPv6) host that must end with `]`
immediately before that colon; a bare host must contain no further
colon; no stray brackets are allowed.  All error returns collapse to
`none`. -/
def splitHostPort (hostPort : Str) : Option (Str × Str) :=
  match lastIndexOf hostPort ':' with
  | none => none
  | some i =>
    match hostPort with
    | '[' :: _ =>
      match byteIndex hostPort ']' with
      | none => none
      | some e =>
        if e + 1 = hostPort.length then
          none
        else if e + 1 = i then
          let host := (hostPort.take e).drop 1
          if (byteIndex (hostPort.drop 1) '[').isSome then none
          else if (byteIndex (hostPort.drop (e + 1)) ']').isSome then none
          else some (host, hostPort.drop (i + 1))
        else
          none
    | _ =>
      let host := hostPort.take i
      if (byteIndex host ':').isSome then none
      else if (byteIndex hostPort '[').isSome then none
      else if (byteIndex hostPort ']').isSome then none
      else some (host, hostPort.drop (i + 1))

/-- Digit-accumulation loop of Go `net.parsePort`, on `uint32` with
wrap-around; `none` means a non-digit was hit (service-name lookup
needed), `some n` is the accumulated value with overflow saturated to
`2^32 - 1`. -/
def parsePortLoop : Str → Nat → Option Nat
  | [], n => some n
  | d :: rest, n =>
    if '0' ≤ d ∧ d ≤ '9' then
      if 1073741824 ≤ n then some 4294967295
      else
        let m := n * 10 % 4294967296
        let nn := (m + (d.toNat - '0'.toNat)) % 4294967296
        if nn < m then some 4294967295
        else parsePortLoop rest nn
    else none

/-- Go `net.parsePort`: empty string is port 0; an optional sign is
consumed; digits accumulate in `uint32`; a non-digit switches to
service-name lookup (`needsLookup = true`); positive overflow clamps to
`cutoff - 1`, negative overflow to `-cutoff` (`cutoff = 2^30`). -/
def parsePort (service : Str) : Int × Bool :=
  match service with
  | [] => (0, false)
  | c :: rest =>
    let signed : Bool × Str :=
      if c = '+' then (false, rest)
      else if c = '-' then (true, rest)
      else (false, c :: rest)
    match parsePortLoop signed.2 0 with
    | none => (0, true)
    | some n =>
      if signed.1 then
        (-(if 1073741824 < n then (1073741824 : Int) else (n : Int)), false)
      else
        ((if 1073741824 ≤ n then (1073741824 : Int) - 1 else (n : Int)), false)

/-- Pre-range-check port resolution inside Go `net.LookupPort` for
network `"tcp"`: the numeric fast path is `parsePort`; a non-numeric
service name is resolved against the system services database,
modelled by the oracle `services`. -/
def resolvePort (services : Str → Option Int) (service : Str) : Option Int :=
  let p := parsePort service
  if p.2 then services service else some p.1

/-- Go `net.LookupPort("tcp", service)`: resolve, then reject anything
outside `0 ≤ port ≤ 65535`. -/
def lookupPort (services : Str → Option Int) (service : Str) : Option Int :=
  match resolvePort services service with
  | none => none
  | some port => if 0 ≤ port ∧ port ≤ 65535 then some port else none

/-- Per-target fatal errors of the engine, in the order the stages can
produce them. -/
inductive TargetErr where
  /-- Case where `net.SplitHostPort` failed inside `ensureHostPort`. -/
  | invalidAddr : TargetErr
  /-- Case where `net.LookupPort` failed inside `ensureHostPort`. -/
  | invalidPort : TargetErr
  /-- Case where `tls.Dialer.DialContext` failed inside `getTLSConn`. -/
  | dialFailed : TargetErr
  /-- the dialed connection was not a `*tls.Conn`. -/
  | notTLS : TargetErr
  /-- empty peer-certificate chain in `getServerCert`. -/
  | noCert : TargetErr
deriving DecidableEq, Repr

/-- Model of `ensureHostPort` (cert.go): `net.SplitHostPort`, then
`net.LookupPort("tcp", port)`; returns the split `(host, port)` pair. -/
def ensureHostPort (services : Str → Option Int) (addr : Str) :
    Except TargetErr (Str × Str) :=
  match splitHostPort addr with
  | none => .error .invalidAddr
  | some (host, port) =>
    match lookupPort services port with
    | none => .error .invalidPort
    | some _ => .ok (host, port)

/-! ## `daysLeft` (cert.go)

Go computes `int(t.Sub(u).Hours() / 24)` in `float64`.  The embedding
keeps the exact real value of each subexpression as an unreduced
fraction (`Frac`), so `Duration.Hours()` — which Go evaluates as
`float64(d / Hour) + float64(d % Hour) / (60*60*1e9)` with `/` and `%`
truncating toward zero — is represented exactly, and the final `int(x)`
conversion is truncation toward zero.  (`float64` rounding error is not
modelled; every theorem below evaluates the expression at magnitudes
where the binary computation is exact or cannot cross an integer
boundary.) -/

/-- Unreduced fraction: the exact value of a Go floating-point
subexpression. -/
structure Frac where
  num : Int
  den : Int
deriving DecidableEq, Repr

/-- Exact addition of fractions. -/
def Frac.add (x y : Frac) : Frac := ⟨x.num * y.den + y.num * x.den, x.den * y.den⟩

/-- Exact division of fractions. -/
def Frac.div (x y : Frac) : Frac := ⟨x.num * y.den, x.den * y.num⟩

/-- Embeds an integer (e.g. a Go integer converted with `float64(·)`). -/
def Frac.ofInt (n : Int) : Frac := ⟨n, 1⟩

/-- Go `int(x)` on a non-negative-denominator fraction: truncation
toward zero. -/
def Frac.toIntTrunc (x : Frac) : Int := Int.tdiv x.num x.den

/-- Value of `time.Hour` in nanoseconds. -/
def hourNs : Int := 3600000000000

/-- Go `time.Duration.Hours()` of `d` nanoseconds:
`float64(d / Hour) + float64(d % Hour) / (60*60*1e9)`, with `/`/`%` the
Go (truncating) integer division and modulus. -/
def durationHours (d : Int) : Frac :=
  Frac.add (Frac.ofInt (Int.tdiv d hourNs)) (Frac.div (Frac.ofInt (Int.tmod d hourNs)) (Frac.ofInt hourNs))

/-- Model of `daysLeft` (cert.go): `int(t.Sub(u).Hours() / 24)`. -/
def daysLeft (t u : Int) : Int :=
  Frac.toIntTrunc (Frac.div (durationHours (t - u)) (Frac.ofInt 24))

/-- Nanoseconds in 24 hours. -/
def dayNs : Int := 86400000000000

/-- The `float64` chain in `daysLeft` collapses: it is exactly the
truncated-toward-zero division of the nanosecond difference by 24h. -/
theorem daysLeft_eq_tdiv (t u : Int) : daysLeft t u = Int.tdiv (t - u) dayNs := by
  unfold daysLeft durationHours Frac.toIntTrunc Frac.add Frac.div Frac.ofInt dayNs
  have h : hourNs * Int.tdiv (t - u) hourNs + Int.tmod (t - u) hourNs = t - u :=
    Int.tdiv_add_tmod (t - u) hourNs
  simp only []
  have hnum : Int.tdiv (t - u) hourNs * (1 * hourNs) + Int.tmod (t - u) hourNs * 1 * 1
      = t - u := by linarith [h]
  have hden : (1 : Int) * (1 * hourNs) * 24 = 86400000000000 := by
    unfold hourNs; norm_num
  rw [hnum, hden, mul_one]

/-! ## Engine data model (`cert.go`) -/

/-- Resolved IP address, modelled as its byte sequence (Go `net.IP`). -/
abbrev IP := List Nat

/-- Byte-wise lexicographic order used to sort resolved IPs
(Go `bytes.Compare(a, b)` inside `lookupIP`). -/
def ipLe : IP → IP → Bool
  | [], _ => true
  | _ :: _, [] => false
  | a :: as, b :: bs => if a < b then true else if b < a then false else ipLe as bs

/-- Insertion of an element into a sorted list. -/
def insertSorted (x : IP) : List IP → List IP
  | [] => [x]
  | y :: ys => if ipLe x y then x :: y :: ys else y :: insertSorted x ys

/-- Model of `slices.SortFunc(c.ips, bytes.Compare)` in `lookupIP`.
`bytes.Compare` is a total order (two byte slices comparing equal are
identical), so every sorting algorithm produces the same list; a
structural insertion sort stands in for Go's pattern-defeating
quicksort. -/
def sortIPs (l : List IP) : List IP := l.foldr insertSorted []

/-- Live TLS connection handle (Go `*tls.Conn`); `alive` records whether
the remote endpoint is still usable (observable only through fresh I/O,
never consulted by the engine). -/
structure TLSConn where
  id : Nat
  alive : Bool
deriving DecidableEq, Repr

/-- Leaf or chain certificate as the engine reads it
(Go `*x509.Certificate`); URIs are kept in their rendered string
form. -/
structure Cert where
  issuer : Str
  commonName : Str
  dnsNames : List Str
  emailAddresses : List Str
  ipAddresses : List IP
  uris : List Str
  notBefore : Int
  notAfter : Int
deriving DecidableEq, Repr

/-- Result record `certInfo` (cert.go).  Times are instants in
nanoseconds; the Go `.In(location)` calls change only the rendering
time zone of an instant, not the instant itself, so they are identities
here. -/
structure certInfo where
  DomainName : Str
  AccessPort : Str
  IPAddresses : List IP
  Issuer : Str
  CommonName : Str
  SANs : List Str
  NotBefore : Int
  NotAfter : Int
  CurrentTime : Int
  DaysLeft : Int
deriving DecidableEq, Repr

/-- Outcome of `tls.Dialer.DialContext` for one address. -/
inductive DialResult where
  /-- Transport/handshake failure (`err != nil`). -/
  | failed : DialResult
  /-- Connection established but not a `*tls.Conn`. -/
  | notTLS : DialResult
  /-- TLS session established. -/
  | ok : TLSConn → DialResult
deriving DecidableEq, Repr

/-- Environment: everything the engine observes from outside the
process.  Each field is the deterministic outcome the network/system
would give during the modelled run. -/
structure Env where
  /-- System services database consulted by `net.LookupPort` for
  non-numeric port strings. -/
  services : Str → Option Int
  /-- Outcome of `resolver.LookupIP(ctx, "ip", host)`; `none` is a
  resolution error. -/
  resolve : Str → Option (List IP)
  /-- Outcome of `dialer.DialContext(ctx, "tcp", addr)`. -/
  dial : Str → DialResult
  /-- Peer-certificate chain of a connection
  (`tlsConn.ConnectionState().PeerCertificates`), keyed by connection
  id. -/
  peerCerts : Nat → List Cert
  /-- Rendering `net.IP.String()` used when assembling SANs. -/
  ipString : IP → Str
  /-- Current instant (`time.Now()`), in nanoseconds. -/
  now : Int

/-- Lookup in an association list (a `sync.Map` snapshot). -/
def mapLookup {α : Type} : List (Str × α) → Str → Option α
  | [], _ => none
  | (k, v) :: rest, key => if k = key then some v else mapLookup rest key

/-- Store into an association list (a `sync.Map` `Store`). -/
def mapStore {α : Type} : List (Str × α) → Str → α → List (Str × α)
  | [], key, v => [(key, v)]
  | (k, w) :: rest, key, v =>
    if k = key then (key, v) :: rest else (k, w) :: mapStore rest key v

/-- Mutable process-wide state threaded through the engine: the two
`sync.Map`s of cert.go plus instrumentation counters recording the side
effects the specification reasons about (DNS resolutions performed, TLS
dials attempted, connections closed, per-target work units started). -/
structure CacheState where
  ipMap : List (Str × List IP)
  connMap : List (Str × TLSConn)
  queries : Nat
  dials : Nat
  closes : Nat
  started : Nat
deriving DecidableEq, Repr

/-- Initial process state: empty caches, zeroed counters. -/
def initState : CacheState :=
  { ipMap := [], connMap := [], queries := 0, dials := 0, closes := 0, started := 0 }

/-- Per-target state `connector` (cert.go).  The `timeout`, `location`,
`tlsConfig` and `mu` fields are omitted: timeouts and the context are
real-time bounds with no effect on the modelled outcomes, `tlsConfig`
is a pure function of `host` and the insecure flag, and the mutex only
guards the connector against itself (each connector is owned by a
single worker). -/
structure connector where
  addr : Str
  host : Str
  port : Str
  ips : List IP
  tlsConn : Option TLSConn
deriving DecidableEq, Repr

/-- Model of `newConnector` (cert.go): normalize the default port, then
validate and split host/port. -/
def newConnector (services : Str → Option Int) (addr : Str) :
    Except TargetErr connector :=
  let addr := ensureDefaultPort addr
  match ensureHostPort services addr with
  | .error e => .error e
  | .ok (host, port) =>
    .ok { addr := addr, host := host, port := port, ips := [], tlsConn := none }

/-- Model of `lookupIP` (cert.go): a cached entry for the host is
returned as-is with no resolution; otherwise one resolution is
performed (counted in `queries`), a failure becomes the empty list, the
result is sorted by `bytes.Compare` and stored.  The Go method returns
no error in either case. -/
def lookupIP (env : Env) (c : connector) (st : CacheState) :
    connector × CacheState :=
  match mapLookup st.ipMap c.host with
  | some caches => ({ c with ips := caches }, st)
  | none =>
    let resolved : List IP :=
      match env.resolve c.host with
      | some ips => ips
      | none => []
    let sorted := sortIPs resolved
    ({ c with ips := sorted },
     { st with
        ipMap := mapStore st.ipMap c.host sorted
        queries := st.queries + 1 })

/-- Model of `getTLSConn` (cert.go): a cached connection for the host
is adopted unchanged (no probe of any kind, no dial); otherwise one
dial is attempted (counted in `dials`): a transport failure is a fatal
error, a non-TLS connection is closed (counted in `closes`) and fatal,
and a fresh TLS connection is stored in the cache and adopted. -/
def getTLSConn (env : Env) (c : connector) (st : CacheState) :
    Except TargetErr connector × CacheState :=
  match mapLookup st.connMap c.host with
  | some conn => (.ok { c with tlsConn := some conn }, st)
  | none =>
    let st := { st with dials := st.dials + 1 }
    match env.dial c.addr with
    | .failed => (.error .dialFailed, st)
    | .notTLS => (.error .notTLS, { st with closes := st.closes + 1 })
    | .ok conn =>
      (.ok { c with tlsConn := some conn },
       { st with connMap := mapStore st.connMap c.host conn })

/-- Model of `releaseTLSConn` (cert.go): when the connector holds a
connection it is stored back into the cache unconditionally — it is
never probed and never closed — and the connector drops its
reference. -/
def releaseTLSConn (c : connector) (st : CacheState) :
    connector × CacheState :=
  match c.tlsConn with
  | some conn =>
    ({ c with tlsConn := none }, { st with connMap := mapStore st.connMap c.host conn })
  | none => (c, st)

/-- Model of `getSANs` (cert.go): DNS names, then e-mail addresses,
then IP addresses, then URIs. -/
def getSANs (env : Env) (cert : Cert) : List Str :=
  cert.dnsNames ++ cert.emailAddresses ++ cert.ipAddresses.map env.ipString ++ cert.uris

/-- Go `time.Time.Truncate(time.Second)`: rounds down to a multiple of
one second since the zero time. -/
def truncSec (t : Int) : Int := t - t % 1000000000

/-- Model of `getServerCert` (cert.go): fatal on an empty
peer-certificate chain, otherwise builds the record from the leaf
certificate.  (`getServerCert` runs only after `getTLSConn` succeeded,
so `tlsConn` is always set in the modelled flows.) -/
def getServerCert (env : Env) (c : connector) : Except TargetErr certInfo :=
  let certs : List Cert :=
    match c.tlsConn with
    | some conn => env.peerCerts conn.id
    | none => []
  match certs with
  | [] => .error .noCert
  | cert :: _ =>
    .ok
      { DomainName := c.host
        AccessPort := c.port
        IPAddresses := c.ips
        Issuer := cert.issuer
        CommonName := cert.commonName
        SANs := getSANs env cert
        NotBefore := cert.notBefore
        NotAfter := cert.notAfter
        CurrentTime := truncSec env.now
        DaysLeft := daysLeft cert.notAfter env.now }

/-- Tail of the worker after `getTLSConn` succeeded: `lookupIP`, then
`getServerCert`, then — via `defer conn.releaseTLSConn()` — the release
step, which therefore executes regardless of the extraction outcome. -/
def extractAndRelease (env : Env) (c : connector) (st : CacheState) :
    CacheState × Except TargetErr certInfo :=
  let looked := lookupIP env c st
  let r := getServerCert env looked.1
  let released := releaseTLSConn looked.1 looked.2
  (released.2, r)

/-- Body of the `eg.Go` closure in `getCertList` (cert.go) for one
target: build the connector, obtain a TLS connection, then extract and
release.  `started` counts the work units entered. -/
def processTarget (env : Env) (addr : Str) (st : CacheState) :
    CacheState × Except TargetErr certInfo :=
  let st := { st with started := st.started + 1 }
  match newConnector env.services addr with
  | .error e => (st, .error e)
  | .ok c =>
    match getTLSConn env c st with
    | (.error e, st') => (st', .error e)
    | (.ok c', st') => extractAndRelease env c' st'

/-- Runs every target in input order, collecting each per-target
outcome.  (Go runs the closures concurrently; the cache interleaving is
modelled sequentially, and the index-addressed result writes are shown
order-independent separately.) -/
def getCertListAux (env : Env) : List Str → CacheState →
    CacheState × List (Except TargetErr certInfo)
  | [], st => (st, [])
  | addr :: rest, st =>
    let first := processTarget env addr st
    let others := getCertListAux env rest first.1
    (others.1, first.2 :: others.2)

/-- Aggregation of `errgroup.Wait` plus the pre-sized result slice: the
first error (the model picks index order as the representative
serialization) makes the whole call fail with that error alone;
otherwise all records are returned in input order. -/
def collectResults : List (Except TargetErr certInfo) →
    Except TargetErr (List certInfo)
  | [] => .ok []
  | .error e :: _ => .error e
  | .ok info :: rest =>
    match collectResults rest with
    | .error e => .error e
    | .ok infos => .ok (info :: infos)

/-- Model of `getCertList` (cert.go): allocate `res` sized to the input,
run one worker per target under the CPU-count limiter, fail as a whole
on the first error, otherwise return all records in input order. -/
def getCertList (env : Env) (addrs : List Str) (st : CacheState) :
    CacheState × Except TargetErr (List certInfo) :=
  let ran := getCertListAux env addrs st
  (ran.1, collectResults ran.2)

/-- Decidable equality for `Except` outcomes (needed to evaluate the
engine on concrete inputs). -/
instance {ε α : Type} [DecidableEq ε] [DecidableEq α] : DecidableEq (Except ε α) := fun x y =>
  match x, y with
  | .ok a, .ok b =>
    if h : a = b then isTrue (by rw [h]) else isFalse (fun hh => h (Except.ok.inj hh))
  | .error a, .error b =>
    if h : a = b then isTrue (by rw [h]) else isFalse (fun hh => h (Except.error.inj hh))
  | .ok _, .error _ => isFalse (fun hh => Except.noConfusion hh)
  | .error _, .ok _ => isFalse (fun hh => Except.noConfusion hh)

/-! ## Worker-pool scheduler (`getCertList` concurrency skeleton)

The orchestration loop acquires one permit from a weighted semaphore of
capacity `runtime.NumCPU()` before spawning each worker
(`sem.Acquire(ctx, 1)` then `eg.Go`), and each worker releases its
permit on exit (`defer sem.Release(1)`).  The permit accounting is a
transition system over abstract scheduler states; everything a worker
does between acquire and release is irrelevant to the bound. -/

/-- Scheduler state of one `getCertList` call: `queued` targets not yet
dispatched, `running` workers past the limiter and not yet released,
`semAvail` free permits of the weighted semaphore. -/
structure SchedState where
  queued : Nat
  running : Nat
  semAvail : Nat
deriving DecidableEq, Repr

/-- Interleaved transitions: `dispatch` is `sem.Acquire(ctx, 1)`
(possible only when a permit is free — `semaphore.Weighted` blocks
otherwise) immediately followed by `eg.Go`; `finish` is a worker's
`defer sem.Release(1)` on exit. -/
inductive SchedStep : SchedState → SchedState → Prop where
  | dispatch (s : SchedState) (hq : 0 < s.queued) (ha : 0 < s.semAvail) :
      SchedStep s ⟨s.queued - 1, s.running + 1, s.semAvail - 1⟩
  | finish (s : SchedState) (hr : 0 < s.running) :
      SchedStep s ⟨s.queued, s.running - 1, s.semAvail + 1⟩

/-- States reachable during a `getCertList` call over `n` targets with
limiter capacity `cap` (`semaphore.NewWeighted(int64(runtime.NumCPU()))`
makes `cap` the logical-CPU count). -/
inductive SchedReachable (n cap : Nat) : SchedState → Prop where
  | init : SchedReachable n cap ⟨n, 0, cap⟩
  | step {s s' : SchedState} :
      SchedReachable n cap s → SchedStep s s' → SchedReachable n cap s'

/-! ## Helper functions used by the theorems -/

/-- Test for the error case of an `Except` outcome. -/
def isErrB {ε α : Type} : Except ε α → Bool
  | .error _ => true
  | .ok _ => false

/-- Decimal value of a digit string. -/
def digitsVal (p : Str) : Int :=
  ((p.foldl (fun n c => n * 10 + (c.toNat - '0'.toNat)) 0 : Nat) : Int)

/-- Accumulating decimal fold, the specification-side twin of
`parsePortLoop` in its non-overflowing regime. -/
def digitsValN (p : Str) (n : Nat) : Nat :=
  p.foldl (fun a c => a * 10 + (c.toNat - '0'.toNat)) n

/-- Index-addressed completion of the pre-sized result array: starting
from `res := make([]*certInfo, n)` (all slots empty), perform the write
`res[i] = info_i` once for each index, in the order the workers happen
to finish. -/
def writeResults (res : List certInfo) (order : List Nat) : List (Option certInfo) :=
  order.foldl (fun acc i => acc.set i (res[i]?)) (List.replicate res.length none)

/-! ## Concrete fixtures for witnesses and counterexamples -/

/-- Services oracle of a system with an empty services database. -/
def noServices : Str → Option Int := fun _ => none

/-- Host name used by the concrete scenarios. -/
def hostH : Str := ['h']

/-- Pooled connection whose remote end is already dead. -/
def staleConn : TLSConn := ⟨7, false⟩

/-- Connector for `hostH` that has not yet acquired a connection. -/
def connH : connector :=
  { addr := ['h', ':', '1'], host := hostH, port := ['1'], ips := [], tlsConn := none }

/-- Connector for `hostH` currently holding the dead connection. -/
def connHeld : connector := { connH with tlsConn := some staleConn }

/-- Cache state whose connection cache holds the dead connection for
`hostH`. -/
def stStale : CacheState := { initState with connMap := [(hostH, staleConn)] }

/-- Environment in which every network operation fails and every
certificate chain is empty. -/
def envDead : Env :=
  { services := noServices
    resolve := fun _ => none
    dial := fun _ => DialResult.failed
    peerCerts := fun _ => []
    ipString := fun _ => []
    now := 0 }

/-- Leaf certificate used by the healthy scenarios: expires exactly 24h
after the scenario clock (`envGood.now = 0`). -/
def certT : Cert :=
  { issuer := ['I']
    commonName := ['C']
    dnsNames := [['d']]
    emailAddresses := []
    ipAddresses := []
    uris := []
    notBefore := 0
    notAfter := 86400000000000 }

/-- Environment in which every dial succeeds with the same connection
and every chain is `[certT]`; DNS resolves every host to two addresses
given in reverse order (so the sorting in `lookupIP` is visible). -/
def envGood : Env :=
  { services := noServices
    resolve := fun _ => some [[5, 6], [1, 2]]
    dial := fun _ => DialResult.ok ⟨1, true⟩
    peerCerts := fun _ => [certT]
    ipString := fun _ => ['x']
    now := 0 }

/-- Resolver answering only on the second call's environment, to show
the second `lookupIP` never consults it. -/
def envGood2 : Env := { envGood with resolve := fun _ => some [[9, 9]] }

/-- Unreachable address for the fail-fast scenario. -/
def badAddr : Str := ['z', ':', '1']

/-- Environment for the fail-fast scenario: dialing `badAddr` fails,
every other target is healthy. -/
def envMixed : Env :=
  { envGood with dial := fun a => if a = badAddr then DialResult.failed else DialResult.ok ⟨1, true⟩ }

/-- One unreachable target mixed with nine healthy targets. -/
def addrsMixed : List Str :=
  [['a'], ['b'], ['c'], ['d'], badAddr, ['e'], ['f'], ['g'], ['i'], ['j']]

/-- Record produced by `envGood` for host `a` (sorted IPs, leaf
`certT`, 24h to expiry from `now = 0`). -/
def recA : certInfo :=
  { DomainName := ['a']
    AccessPort := ['4', '4', '3']
    IPAddresses := [[1, 2], [5, 6]]
    Issuer := ['I']
    CommonName := ['C']
    SANs := [['d']]
    NotBefore := 0
    NotAfter := 86400000000000
    CurrentTime := 0
    DaysLeft := 1 }

/-- Record produced by `envGood` for host `b`. -/
def recB : certInfo := { recA with DomainName := ['b'] }

/-- Expected result of the two-target success scenario. -/
def resW : List certInfo := [recA, recB]

/-! ## Shared lemmas -/

/-- Storing under a key and reading it back yields the stored value. -/
theorem mapLookup_mapStore_self {α : Type} (m : List (Str × α)) (k : Str) (v : α) :
    mapLookup (mapStore m k v) k = some v := by
  induction m with
  | nil => simp [mapStore, mapLookup]
  | cons kv rest ih =>
    obtain ⟨q, w⟩ := kv
    by_cases h : q = k
    · simp [mapStore, h, mapLookup]
    · simp [mapStore, h, mapLookup, ih]

/-- `lookupIP` only touches the connector's `ips` field and the IP side
of the state: host, port and held connection are preserved, and so are
the connection cache and the close counter. -/
theorem lookupIP_preserves (env : Env) (c : connector) (st : CacheState) :
    (lookupIP env c st).1.host = c.host
    ∧ (lookupIP env c st).1.port = c.port
    ∧ (lookupIP env c st).1.tlsConn = c.tlsConn
    ∧ (lookupIP env c st).2.connMap = st.connMap
    ∧ (lookupIP env c st).2.closes = st.closes := by
  unfold lookupIP
  cases mapLookup st.ipMap c.host <;> simp

/-! ## Claim theorems -/

/-- C10: `getCertList` on an empty address list performs no per-target
work — the state, instrumentation counters included, is returned
untouched — and returns the empty (in Go: non-nil, length-zero) result
list together with a nil error. -/
theorem C10_getCertList_empty (env : Env) (st : CacheState) :
    getCertList env [] st = (st, Except.ok []) := rfl

/-- C2 as stated fails on the code: for a certificate whose `notAfter`
is one second before `now`, `daysLeft` is 0, not negative — the Go
conversion `int(...)` truncates toward zero instead of flooring. -/
theorem C2_counterexample :
    daysLeft 0 1000000000 = 0 ∧ ¬ daysLeft 0 1000000000 < 0 := by
  constructor
  · decide
  · decide

/-- C2 (amended): `daysLeft(notAfter, now)` equals the truncation
toward zero — not the floor — of (notAfter − now) in whole days: it is
0 when notAfter equals now, 0 (not negative) when notAfter is one
second before now, and 365 when notAfter is exactly 365×24h after
now. -/
theorem C2_daysLeft_truncation :
    (∀ t u : Int, daysLeft t u = Int.tdiv (t - u) dayNs)
    ∧ (∀ n : Int, daysLeft n n = 0)
    ∧ (∀ n : Int, daysLeft (n - 1000000000) n = 0)
    ∧ (∀ n : Int, daysLeft (n + 31536000000000000) n = 365) := by
  refine ⟨daysLeft_eq_tdiv, fun n => ?_, fun n => ?_, fun n => ?_⟩
  · rw [daysLeft_eq_tdiv]
    simp [sub_self]
  · rw [daysLeft_eq_tdiv]
    have h : n - 1000000000 - n = -1000000000 := by ring
    rw [h]; decide
  · rw [daysLeft_eq_tdiv]
    have h : n + 31536000000000000 - n = 31536000000000000 := by ring
    rw [h]; decide

/-- C8: `ensureDefaultPort` appends `":443"` exactly when the raw
address contains no colon; it is idempotent, and an address that
already contains a colon (hence any address already carrying a port) is
returned unchanged. -/
theorem C8_ensureDefaultPort_idempotent (a : Str) :
    ensureDefaultPort (ensureDefaultPort a) = ensureDefaultPort a
    ∧ (':' ∈ a → ensureDefaultPort a = a)
    ∧ (':' ∉ a → ensureDefaultPort a = a ++ ([':', '4', '4', '3'] : Str)) := by
  by_cases h : ':' ∈ a
  · simp [ensureDefaultPort, h]
  · have h2 : ':' ∈ a ++ ([':', '4', '4', '3'] : Str) := by simp
    simp [ensureDefaultPort, h, h2]

/-- C8 witness: a colon-carrying address is unchanged; one without a
colon gets `":443"` appended. -/
theorem C8_witness :
    ensureDefaultPort (['a', ':']) = (['a', ':'])
    ∧ ensureDefaultPort (['b']) = (['b'] ++ ([':', '4', '4', '3'] : Str)) :=
  ⟨(C8_ensureDefaultPort_idempotent (['a', ':'])).2.1 (by decide),
   (C8_ensureDefaultPort_idempotent (['b'])).2.2 (by decide)⟩

/-- Permit accounting: in every reachable scheduler state the running
workers and the free permits sum to the capacity. -/
theorem schedInvariant {n cap : Nat} {s : SchedState}
    (h : SchedReachable n cap s) : s.running + s.semAvail = cap := by
  induction h with
  | init => simp
  | step _ hs ih =>
    cases hs with
    | dispatch hq ha => simp only [] at *; omega
    | finish hr => simp only [] at *; omega

/-- C9: at every point during a `getCertList` call — every reachable
scheduler state — the number of targets simultaneously past the limiter
and not yet released never exceeds the limiter capacity (configured to
the logical-CPU count), for any input list size. -/
theorem C9_limiter_bound (n cap : Nat) (s : SchedState)
    (h : SchedReachable n cap s) : s.running ≤ cap := by
  have := schedInvariant h
  omega

/-- C9 witness: after dispatching one of two targets under capacity 4,
one worker is past the limiter — within the bound. -/
theorem C9_witness :
    SchedReachable 2 4 ⟨1, 1, 3⟩ ∧ (SchedState.mk 1 1 3).running ≤ 4 := by
  have hr : SchedReachable 2 4 ⟨1, 1, 3⟩ :=
    SchedReachable.step SchedReachable.init
      (SchedStep.dispatch ⟨2, 0, 4⟩ (by decide) (by decide))
  exact ⟨hr, C9_limiter_bound 2 4 _ hr⟩

/-- C4 as stated fails on the code: `getTLSConn` reuses a pooled
connection without any liveness probe.  The pooled connection for this
host is dead and every fresh dial in this environment would fail, yet
the call succeeds, adopts the stale connection and leaves the state
untouched — the dial and close counters stay 0, so no probe, no
discard and no fresh dial happened. -/
theorem C4_counterexample :
    getTLSConn envDead connH stStale = (Except.ok connHeld, stStale)
    ∧ staleConn.alive = false
    ∧ stStale.dials = 0 ∧ stStale.closes = 0 := by decide

/-- C4 (amended): when `getTLSConn` finds a pooled connection for the
connector's host in the connection cache, it reuses that connection
unconditionally — no liveness probe is performed, nothing is closed and
no fresh dial occurs (the cache state is returned untouched). -/
theorem C4_cache_hit_unconditional (env : Env) (c : connector) (st : CacheState)
    (conn : TLSConn) (h : mapLookup st.connMap c.host = some conn) :
    getTLSConn env c st = (Except.ok { c with tlsConn := some conn }, st) := by
  unfold getTLSConn
  rw [h]

/-- C4 witness: the cache-hit theorem instantiated on the dead pooled
connection. -/
theorem C4_witness :
    mapLookup stStale.connMap connH.host = some staleConn
    ∧ getTLSConn envDead connH stStale =
        (Except.ok { connH with tlsConn := some staleConn }, stStale) :=
  ⟨by decide, C4_cache_hit_unconditional envDead connH stStale staleConn (by decide)⟩

/-- C5 as stated fails on the code: `releaseTLSConn` performs no
handshake probe and never closes anything — even a connection whose
remote end is dead is stored back into the connection cache, with the
close counter unchanged. -/
theorem C5_counterexample :
    releaseTLSConn connHeld initState =
      ({ connHeld with tlsConn := none },
       { initState with connMap := [(hostH, staleConn)] })
    ∧ staleConn.alive = false ∧ initState.closes = 0 := by decide

/-- C5 (amended): once `getTLSConn` has succeeded, the release step
always executes — via `defer` — regardless of whether certificate
extraction succeeded, and it returns the held connection to the
connection cache unconditionally: it is never probed and never
closed. -/
theorem C5_release_always (env : Env) (c : connector) (st : CacheState)
    (conn : TLSConn) (h : c.tlsConn = some conn) :
    mapLookup (extractAndRelease env c st).1.connMap c.host = some conn
    ∧ (extractAndRelease env c st).1.closes = st.closes := by
  unfold extractAndRelease releaseTLSConn lookupIP
  cases hm : mapLookup st.ipMap c.host <;>
    simp [h, mapLookup_mapStore_self]

/-- C5 witness: in an environment whose certificate chain is empty the
extraction fails, yet the dead connection is still stored back into the
cache and nothing is closed. -/
theorem C5_witness :
    connHeld.tlsConn = some staleConn
    ∧ (mapLookup (extractAndRelease envDead connHeld initState).1.connMap connHeld.host
          = some staleConn
       ∧ (extractAndRelease envDead connHeld initState).1.closes = initState.closes)
    ∧ (extractAndRelease envDead connHeld initState).2 = Except.error TargetErr.noCert :=
  ⟨by decide, C5_release_always envDead connHeld initState staleConn (by decide), by decide⟩

/-- C6: `lookupIP` never escalates a failure to an error.  A cached
host is answered from the cache with no resolution; an uncached host is
resolved once and the sorted result — or the empty set on failure — is
stored.  Hence across two sequential lookups of the same host at most
one DNS query is issued, and the second call returns the cached
(possibly empty) result without network access: its own environment
`env2` is never consulted and the state is returned unchanged. -/
theorem C6_lookupIP_cached (env env2 : Env) (c c2 : connector) (st : CacheState)
    (hhost : c2.host = c.host) :
    (∀ ips, mapLookup st.ipMap c.host = some ips →
        lookupIP env c st = ({ c with ips := ips }, st))
    ∧ (mapLookup st.ipMap c.host = none →
        lookupIP env c st =
          ({ c with ips := sortIPs ((env.resolve c.host).getD []) },
           { st with
              ipMap := mapStore st.ipMap c.host (sortIPs ((env.resolve c.host).getD []))
              queries := st.queries + 1 }))
    ∧ (lookupIP env c st).2.queries ≤ st.queries + 1
    ∧ lookupIP env2 c2 (lookupIP env c st).2 =
        ({ c2 with ips := (lookupIP env c st).1.ips }, (lookupIP env c st).2) := by
  refine ⟨fun ips h => ?_, fun h => ?_, ?_, ?_⟩
  · simp [lookupIP, h]
  · cases hr : env.resolve c.host <;> simp [lookupIP, h, hr]
  · cases hm : mapLookup st.ipMap c.host <;> simp [lookupIP, hm]
  · cases hm : mapLookup st.ipMap c.host with
    | some ips =>
      simp [lookupIP, hm, hhost]
    | none =>
      simp [lookupIP, hm, hhost, mapLookup_mapStore_self]

/-- C6 witness: the first lookup resolves and caches the sorted
addresses; the second lookup — in an environment whose resolver would
answer differently — returns the cached sorted result and leaves the
state untouched, with a single query issued in total. -/
theorem C6_witness :
    lookupIP envGood2 connH (lookupIP envGood connH initState).2 =
      ({ connH with ips := (lookupIP envGood connH initState).1.ips },
       (lookupIP envGood connH initState).2)
    ∧ (lookupIP envGood connH initState).2.queries ≤ initState.queries + 1
    ∧ (lookupIP envGood connH initState).1.ips = [[1, 2], [5, 6]] :=
  ⟨(C6_lookupIP_cached envGood envGood2 connH connH initState rfl).2.2.2,
   (C6_lookupIP_cached envGood envGood2 connH connH initState rfl).2.2.1,
   by decide⟩

/-- Collecting the per-target outcomes fails whenever any outcome is an
error. -/
theorem collectResults_isErr (rs : List (Except TargetErr certInfo))
    (h : ∃ r ∈ rs, isErrB r = true) :
    ∃ e, collectResults rs = Except.error e := by
  induction rs with
  | nil => simp at h
  | cons r rest ih =>
    cases r with
    | error e => exact ⟨e, rfl⟩
    | ok info =>
      have hrest : ∃ r ∈ rest, isErrB r = true := by
        obtain ⟨r, hr, he⟩ := h
        rcases List.mem_cons.mp hr with h1 | h1
        · subst h1; simp [isErrB] at he
        · exact ⟨r, h1, he⟩
      obtain ⟨e, he⟩ := ih hrest
      exact ⟨e, by simp [collectResults, he]⟩

/-- C7: if any single target fails fatally (invalid address or port,
dial failure, non-TLS connection, or empty peer-certificate chain),
`getCertList` returns an error as its sole result and exposes no
partial result set. -/
theorem C7_fail_fast (env : Env) (addrs : List Str) (st : CacheState)
    (h : ∃ r ∈ (getCertListAux env addrs st).2, isErrB r = true) :
    (∃ e, (getCertList env addrs st).2 = Except.error e)
    ∧ ∀ res, (getCertList env addrs st).2 ≠ Except.ok res := by
  obtain ⟨e, he⟩ := collectResults_isErr _ h
  have hg : (getCertList env addrs st).2 = collectResults (getCertListAux env addrs st).2 := rfl
  refine ⟨⟨e, by rw [hg, he]⟩, fun res hres => ?_⟩
  rw [hg, he] at hres
  cases hres

/-- C7 witness: one unreachable target mixed with nine healthy targets
makes the whole call return an error rather than nine successes and one
failure. -/
theorem C7_witness :
    (∃ r ∈ (getCertListAux envMixed addrsMixed initState).2, isErrB r = true)
    ∧ ∃ e, (getCertList envMixed addrsMixed initState).2 = Except.error e := by
  have h : ∃ r ∈ (getCertListAux envMixed addrsMixed initState).2, isErrB r = true := by decide
  exact ⟨h, (C7_fail_fast envMixed addrsMixed initState h).1⟩

/-- A successful `newConnector` carries exactly the validated host and
port of the default-port-normalized address. -/
theorem newConnector_ok_fields (services : Str → Option Int) (addr : Str)
    (c : connector) (h : newConnector services addr = Except.ok c) :
    ensureHostPort services (ensureDefaultPort addr) = Except.ok (c.host, c.port) := by
  simp only [newConnector] at h
  cases he : ensureHostPort services (ensureDefaultPort addr) with
  | error e => rw [he] at h; cases h
  | ok hp =>
    obtain ⟨host, port⟩ := hp
    rw [he] at h
    injection h with h
    subst h
    rfl

/-- `getTLSConn` never changes the connector's host or port. -/
theorem getTLSConn_ok_fields (env : Env) (c c2 : connector) (st st2 : CacheState)
    (h : getTLSConn env c st = (Except.ok c2, st2)) :
    c2.host = c.host ∧ c2.port = c.port := by
  unfold getTLSConn at h
  cases hm : mapLookup st.connMap c.host with
  | some conn =>
    rw [hm] at h
    injection h with h1 h2
    injection h1 with h1
    subst h1
    exact ⟨rfl, rfl⟩
  | none =>
    rw [hm] at h
    cases hd : env.dial c.addr with
    | failed => rw [hd] at h; injection h with h1 h2; cases h1
    | notTLS => rw [hd] at h; injection h with h1 h2; cases h1
    | ok conn =>
      rw [hd] at h
      injection h with h1 h2
      injection h1 with h1
      subst h1
      exact ⟨rfl, rfl⟩

/-- A record built by `getServerCert` describes the connector's own
host and port. -/
theorem getServerCert_ok_fields (env : Env) (c : connector) (info : certInfo)
    (h : getServerCert env c = Except.ok info) :
    info.DomainName = c.host ∧ info.AccessPort = c.port := by
  unfold getServerCert at h
  cases hc : (match c.tlsConn with
      | some conn => env.peerCerts conn.id
      | none => ([] : List Cert)) with
  | nil => rw [hc] at h; cases h
  | cons cert rest =>
    rw [hc] at h
    injection h with h
    subst h
    exact ⟨rfl, rfl⟩

/-- Shape of a per-target success: the record's DomainName/AccessPort
are the validated host/port of the default-port-normalized address. -/
theorem processTarget_ok_shape (env : Env) (addr : Str) (st : CacheState)
    (info : certInfo) (h : (processTarget env addr st).2 = Except.ok info) :
    ∃ host port,
      ensureHostPort env.services (ensureDefaultPort addr) = Except.ok (host, port)
      ∧ info.DomainName = host ∧ info.AccessPort = port := by
  simp only [processTarget] at h
  cases hnc : newConnector env.services addr with
  | error e =>
    rw [hnc] at h
    simp only [] at h
    exact Except.noConfusion h
  | ok c =>
    rw [hnc] at h
    simp only [] at h
    rcases hgt : getTLSConn env c { st with started := st.started + 1 } with ⟨r, st2⟩
    rw [hgt] at h
    cases r with
    | error e => simp at h
    | ok c2 =>
      have hfields := getTLSConn_ok_fields env c c2 _ st2 hgt
      have hex : (extractAndRelease env c2 st2).2 = getServerCert env (lookupIP env c2 st2).1 := rfl
      simp only [] at h
      rw [hex] at h
      have hip := lookupIP_preserves env c2 st2
      have hsc := getServerCert_ok_fields env _ info h
      refine ⟨c.host, c.port, newConnector_ok_fields env.services addr c hnc, ?_, ?_⟩
      · rw [hsc.1, hip.1, hfields.1]
      · rw [hsc.2, hip.2.1, hfields.2]

/-- One per-target outcome is produced for each input address. -/
theorem getCertListAux_length (env : Env) (addrs : List Str) (st : CacheState) :
    (getCertListAux env addrs st).2.length = addrs.length := by
  induction addrs generalizing st with
  | nil => rfl
  | cons a rest ih => simp [getCertListAux, ih]

/-- The `i`-th per-target outcome is the outcome of processing the
`i`-th input address (from the cache state current at its turn). -/
theorem getCertListAux_getElem (env : Env) (addrs : List Str) (st : CacheState)
    (i : Nat) (hi : i < addrs.length) :
    ∃ stmid, (getCertListAux env addrs st).2[i]? =
      some (processTarget env (addrs.get ⟨i, hi⟩) stmid).2 := by
  induction addrs generalizing st i with
  | nil => simp at hi
  | cons a rest ih =>
    cases i with
    | zero => exact ⟨st, by simp [getCertListAux]⟩
    | succ i =>
      obtain ⟨stmid, hmid⟩ := ih (processTarget env a st).1 i (by simpa using hi)
      exact ⟨stmid, by simpa [getCertListAux] using hmid⟩

/-- A successful aggregation keeps every outcome, in order. -/
theorem collectResults_ok_getElem (rs : List (Except TargetErr certInfo))
    (res : List certInfo) (h : collectResults rs = Except.ok res) :
    res.length = rs.length
    ∧ ∀ i (hi : i < rs.length), ∃ hri : i < res.length,
        rs.get ⟨i, hi⟩ = Except.ok (res.get ⟨i, hri⟩) := by
  induction rs generalizing res with
  | nil =>
    injection h with h
    subst h
    exact ⟨rfl, fun i hi => absurd hi (by simp)⟩
  | cons r rest ih =>
    cases r with
    | error e => cases h
    | ok info =>
      cases hcr : collectResults rest with
      | error e => simp [collectResults, hcr] at h
      | ok infos =>
        simp only [collectResults, hcr] at h
        injection h with h
        subst h
        obtain ⟨hlen, helem⟩ := ih infos hcr
        refine ⟨by simp [hlen], fun i hi => ?_⟩
        cases i with
        | zero => exact ⟨by simp, by simp⟩
        | succ i =>
          obtain ⟨hri, he⟩ := helem i (by simpa using hi)
          exact ⟨by simpa using hri, by simpa using he⟩

/-- Element view of the index-addressed write fold. -/
theorem writeResults_getElem (res : List certInfo) (order : List Nat)
    (acc : List (Option certInfo)) (j : Nat) :
    (order.foldl (fun a i => a.set i (res[i]?)) acc)[j]? =
      if j ∈ order ∧ j < acc.length then some (res[j]?) else acc[j]? := by
  induction order generalizing acc with
  | nil => simp
  | cons i order ih =>
    simp only [List.foldl_cons]
    rw [ih]
    simp only [List.length_set, List.getElem?_set, List.mem_cons]
    have hacc : ¬ j < acc.length → acc[j]? = none := fun hj =>
      List.getElem?_eq_none (by omega)
    by_cases h2 : j < acc.length
    · by_cases h1 : j ∈ order
      · simp [h1, h2]
      · by_cases h3 : i = j
        · subst h3
          simp [h1, h2]
        · simp [h1, h2, h3, Ne.symm h3]
    · by_cases h1 : j ∈ order
      · by_cases h3 : i = j
        · subst h3
          simp [h1, h2, hacc h2]
        · simp [h1, h2, h3, Ne.symm h3, hacc h2]
      · by_cases h3 : i = j
        · subst h3
          simp [h1, h2, hacc h2]
        · simp [h1, h2, h3, Ne.symm h3, hacc h2]

/-- Index-addressed writes of the result records give the same final
array for every completion order. -/
theorem writeResults_perm (res : List certInfo) (order : List Nat)
    (hperm : order.Perm (List.range res.length)) :
    writeResults res order = res.map some := by
  apply List.ext_getElem?
  intro j
  rw [writeResults, writeResults_getElem]
  have hmem : j ∈ order ↔ j < res.length := by
    rw [hperm.mem_iff, List.mem_range]
  rw [List.getElem?_map]
  by_cases hj : j < res.length
  · simp only [List.length_replicate, hmem, hj, and_self, if_true]
    rw [List.getElem?_eq_getElem hj]
    rfl
  · simp only [List.length_replicate, hj, and_false, if_false]
    rw [List.getElem?_replicate]
    have hn : res[j]? = none := List.getElem?_eq_none (by omega)
    simp [hj, hn]

/-- C1: whenever `getCertList` succeeds, the result list has the same
length as the input list, and `result[i]` is the certificate record
describing `input[i]`'s host after default-port normalization (its
DomainName and AccessPort are the validated host and port of
`ensureDefaultPort input[i]`); moreover the index-addressed writes into
the pre-sized result array yield this same array under every completion
order of the workers. -/
theorem C1_order_preserving (env : Env) (addrs : List Str) (st : CacheState)
    (res : List certInfo) (h : (getCertList env addrs st).2 = Except.ok res) :
    res.length = addrs.length
    ∧ (∀ i (hi : i < addrs.length), ∃ host port,
        ensureHostPort env.services (ensureDefaultPort (addrs.get ⟨i, hi⟩)) =
          Except.ok (host, port)
        ∧ ∃ hri : i < res.length,
            (res.get ⟨i, hri⟩).DomainName = host ∧ (res.get ⟨i, hri⟩).AccessPort = port)
    ∧ ∀ order : List Nat, order.Perm (List.range res.length) →
        writeResults res order = res.map some := by
  have hg : (getCertList env addrs st).2 =
      collectResults (getCertListAux env addrs st).2 := rfl
  rw [hg] at h
  obtain ⟨hlen, helem⟩ := collectResults_ok_getElem _ res h
  have hauxlen := getCertListAux_length env addrs st
  refine ⟨by rw [hlen, hauxlen], fun i hi => ?_, fun order hp => writeResults_perm res order hp⟩
  have hiaux : i < (getCertListAux env addrs st).2.length := by rw [hauxlen]; exact hi
  obtain ⟨stmid, hmid⟩ := getCertListAux_getElem env addrs st i hi
  obtain ⟨hri, he⟩ := helem i hiaux
  have hmid2 : (getCertListAux env addrs st).2.get ⟨i, hiaux⟩ =
      (processTarget env (addrs.get ⟨i, hi⟩) stmid).2 := by
    have := List.getElem?_eq_getElem hiaux
    rw [hmid] at this
    exact (Option.some.inj this).symm
  rw [hmid2] at he
  obtain ⟨host, port, hehp, hdn, hap⟩ :=
    processTarget_ok_shape env (addrs.get ⟨i, hi⟩) stmid _ he
  exact ⟨host, port, hehp, hri, hdn, hap⟩

/-- C1 witness: the two-target success scenario and the length part of
the conclusion at that instance. -/
theorem C1_witness :
    (getCertList envGood ([['a'], ['b']] : List Str) initState).2 = Except.ok resW
    ∧ resW.length = ([['a'], ['b']] : List Str).length := by
  have h : (getCertList envGood ([['a'], ['b']] : List Str) initState).2 =
      Except.ok resW := by decide
  exact ⟨h, (C1_order_preserving envGood _ initState resW h).1⟩

/-- Bounds on a decimal digit character. -/
theorem digit_bounds (c : Char) (h : '0' ≤ c ∧ c ≤ '9') :
    48 ≤ c.toNat ∧ c.toNat ≤ 57 := by
  obtain ⟨h1, h2⟩ := h
  simp [Char.le_def] at h1 h2
  exact ⟨h1, h2⟩

/-- A digit character's offset from `'0'` is at most 9. -/
theorem digit_sub_le (c : Char) (h : '0' ≤ c ∧ c ≤ '9') :
    c.toNat - '0'.toNat ≤ 9 := by
  have hb := digit_bounds c h
  have h0 : '0'.toNat = 48 := by decide
  omega

/-- The decimal fold never falls below its accumulator. -/
theorem le_digitsValN (p : Str) (n : Nat) : n ≤ digitsValN p n := by
  induction p generalizing n with
  | nil => simp [digitsValN]
  | cons c rest ih =>
    have step : digitsValN (c :: rest) n
        = digitsValN rest (n * 10 + (c.toNat - '0'.toNat)) := rfl
    rw [step]
    exact le_trans (by omega) (ih (n * 10 + (c.toNat - '0'.toNat)))

/-- Upper bound of the decimal fold over digit characters. -/
theorem digitsValN_lt (p : Str) (n : Nat) (hd : ∀ c ∈ p, '0' ≤ c ∧ c ≤ '9') :
    digitsValN p n < (n + 1) * 10 ^ p.length := by
  induction p generalizing n with
  | nil => simp [digitsValN]
  | cons c rest ih =>
    have hb := digit_sub_le c (hd c (by simp))
    have hdr : ∀ x ∈ rest, '0' ≤ x ∧ x ≤ '9' := fun x hx => hd x (by simp [hx])
    have step : digitsValN (c :: rest) n
        = digitsValN rest (n * 10 + (c.toNat - '0'.toNat)) := rfl
    rw [step]
    have h2 := ih (n * 10 + (c.toNat - '0'.toNat)) hdr
    have h3 : (n * 10 + (c.toNat - '0'.toNat) + 1) * 10 ^ rest.length
        ≤ (n + 1) * 10 ^ (c :: rest).length := by
      have hle : n * 10 + (c.toNat - '0'.toNat) + 1 ≤ (n + 1) * 10 := by omega
      calc (n * 10 + (c.toNat - '0'.toNat) + 1) * 10 ^ rest.length
          ≤ ((n + 1) * 10) * 10 ^ rest.length := mul_le_mul_right' hle _
        _ = (n + 1) * 10 ^ (c :: rest).length := by
            rw [List.length_cons, pow_succ]; ring
    exact lt_of_lt_of_le h2 h3

/-- On digit strings whose decimal value stays below the overflow
cutoff, the `parsePort` digit loop computes exactly the decimal
value. -/
theorem parsePortLoop_eq (p : Str) (n : Nat)
    (hd : ∀ c ∈ p, '0' ≤ c ∧ c ≤ '9')
    (hlt : digitsValN p n < 1073741824) :
    parsePortLoop p n = some (digitsValN p n) := by
  induction p generalizing n with
  | nil => simp [parsePortLoop, digitsValN]
  | cons c rest ih =>
    have hc : '0' ≤ c ∧ c ≤ '9' := hd c (by simp)
    have hb := digit_bounds c hc
    have hdr : ∀ x ∈ rest, '0' ≤ x ∧ x ≤ '9' := fun x hx => hd x (by simp [hx])
    have step : digitsValN (c :: rest) n
        = digitsValN rest (n * 10 + (c.toNat - '0'.toNat)) := rfl
    have hmono : n * 10 + (c.toNat - '0'.toNat) ≤ digitsValN (c :: rest) n := by
      rw [step]; exact le_digitsValN rest _
    have hn : n ≤ digitsValN (c :: rest) n := le_digitsValN (c :: rest) n
    have hnext : n * 10 + (c.toNat - '0'.toNat) < 1073741824 := by omega
    unfold parsePortLoop
    rw [if_pos hc, if_neg (show ¬ 1073741824 ≤ n by omega)]
    dsimp only []
    have hm1 : n * 10 % 4294967296 = n * 10 := Nat.mod_eq_of_lt (by omega)
    rw [hm1]
    have hm2 : (n * 10 + (c.toNat - '0'.toNat)) % 4294967296
        = n * 10 + (c.toNat - '0'.toNat) := Nat.mod_eq_of_lt (by omega)
    rw [hm2]
    rw [if_neg (show ¬ n * 10 + (c.toNat - '0'.toNat) < n * 10 by omega)]
    rw [step]
    exact ih (n * 10 + (c.toNat - '0'.toNat)) hdr (by rw [← step]; exact hlt)

/-- A non-empty all-digit port string of at most 9 digits resolves on
the numeric fast path to exactly its decimal value — the services
database is never consulted. -/
theorem resolvePort_digits (services : Str → Option Int) (p : Str)
    (hne : p ≠ []) (hlen : p.length ≤ 9)
    (hd : ∀ c ∈ p, '0' ≤ c ∧ c ≤ '9') :
    resolvePort services p = some (digitsVal p) := by
  have hvlt : digitsValN p 0 < 1073741824 := by
    have h1 := digitsValN_lt p 0 hd
    have h2 : (10 : Nat) ^ p.length ≤ 10 ^ 9 :=
      Nat.pow_le_pow_right (by norm_num) hlen
    have h3 : (10 : Nat) ^ 9 = 1000000000 := by norm_num
    omega
  have hloop := parsePortLoop_eq p 0 hd hvlt
  obtain ⟨c, rest, rfl⟩ := List.exists_cons_of_ne_nil hne
  have hb := digit_bounds c (hd c (by simp))
  have hcp : ¬ c = '+' := by
    intro hh
    subst hh
    revert hb
    decide
  have hcm : ¬ c = '-' := by
    intro hh
    subst hh
    revert hb
    decide
  simp only [resolvePort, parsePort, if_neg hcp, if_neg hcm]
  rw [hloop]
  dsimp only []
  rw [if_neg (show ¬ 1073741824 ≤ digitsValN (c :: rest) 0 by omega)]
  simp [digitsVal, digitsValN]

/-- C3 as stated fails on the code: the address `"h:0"` splits into
host and port and its port segment is numeric, yet its value 0 lies
outside the claimed range 1–65535 — and `ensureHostPort` still
succeeds, because Go's `net.LookupPort` accepts 0 ≤ port ≤ 65535. -/
theorem C3_counterexample :
    ensureHostPort noServices (['h', ':', '0']) = Except.ok (['h'], ['0'])
    ∧ resolvePort noServices (['0']) = some 0
    ∧ ¬ (1 ≤ (0 : Int)) := by
  refine ⟨by decide, by decide, by decide⟩

/-- C3 (amended): `ensureHostPort` succeeds exactly when the input
splits into host and port and the port segment resolves to a value in
0–65535 (port 0 included): a purely numeric segment resolves on the
numeric fast path to its decimal value, and a non-numeric segment is
resolved against the system services database.  It fails with the
address error when the string cannot be split, and with the port error
when the port segment does not resolve to a value in range. -/
theorem C3_ensureHostPort (services : Str → Option Int) (addr : Str) :
    ((∃ hp, ensureHostPort services addr = Except.ok hp) ↔
      (∃ host port v, splitHostPort addr = some (host, port)
        ∧ resolvePort services port = some v ∧ 0 ≤ v ∧ v ≤ 65535))
    ∧ (splitHostPort addr = none →
        ensureHostPort services addr = Except.error TargetErr.invalidAddr)
    ∧ (∀ host port, splitHostPort addr = some (host, port) →
        lookupPort services port = none →
        ensureHostPort services addr = Except.error TargetErr.invalidPort)
    ∧ (∀ p : Str, p ≠ [] → p.length ≤ 9 → (∀ c ∈ p, '0' ≤ c ∧ c ≤ '9') →
        resolvePort services p = some (digitsVal p)) := by
  refine ⟨⟨?_, ?_⟩, fun hs => ?_, fun host port hs hl => ?_,
    fun p h1 h2 h3 => resolvePort_digits services p h1 h2 h3⟩
  · rintro ⟨hp, hok⟩
    unfold ensureHostPort at hok
    cases hs : splitHostPort addr with
    | none =>
      rw [hs] at hok
      simp only [] at hok
      exact Except.noConfusion hok
    | some pr =>
      obtain ⟨host, port⟩ := pr
      rw [hs] at hok
      simp only [] at hok
      cases hl : lookupPort services port with
      | none =>
        rw [hl] at hok
        simp only [] at hok
        exact Except.noConfusion hok
      | some v =>
        refine ⟨host, port, v, rfl, ?_⟩
        unfold lookupPort at hl
        cases hr : resolvePort services port with
        | none =>
          rw [hr] at hl
          simp only [] at hl
          exact Option.noConfusion hl
        | some w =>
          rw [hr] at hl
          simp only [] at hl
          by_cases hw : 0 ≤ w ∧ w ≤ 65535
          · rw [if_pos hw] at hl
            injection hl with hl
            subst hl
            exact ⟨rfl, hw⟩
          · rw [if_neg hw] at hl
            exact Option.noConfusion hl
  · rintro ⟨host, port, v, hs, hr, h0, h65⟩
    refine ⟨(host, port), ?_⟩
    unfold ensureHostPort lookupPort
    rw [hs]
    simp only []
    rw [hr]
    simp only []
    rw [if_pos ⟨h0, h65⟩]
  · unfold ensureHostPort
    rw [hs]
  · unfold ensureHostPort
    rw [hs]
    simp only []
    rw [hl]

/-- C3 witness: the all-digit port segment `"80"` resolves numerically
to its decimal value 80. -/
theorem C3_witness :
    resolvePort noServices (['8', '0']) = some (digitsVal (['8', '0']))
    ∧ digitsVal (['8', '0']) = 80 :=
  ⟨(C3_ensureHostPort noServices (['h', ':', '8', '0'])).2.2.2 (['8', '0'])
      (by decide) (by decide) (by decide),
   by decide⟩

end Tlc3
